import Mathlib

/-!
A verification development for the phase-0 beacon-chain state-transition core
(prysm).  The Go code is shallowly embedded: pure functions become Lean
functions, Go's `(value, error)` returns become either `Except Err` (when the
receiver is not mutated before the error) or an explicit `State × Option Err`
pair (when in-place mutation of the receiver must be tracked), machine
integers become `Nat` with an explicit `% 2^64` where overflow matters, and
the cryptographic / SSZ primitives that the spec declares external
(`BLS.verify`, hash-tree-root of leaf objects, seeds, the swap-or-not
shuffle) are fields of an `Env` record that every embedded function takes as
its first argument.  Definitions marked `Modelled from the spec:` stand for
code of the repository that is outside the embedded source tree (trieutil,
stateutil, the bounded caches, small helpers); they follow the specification
text for those components.
-/

namespace Prysm

/-- 32-byte roots, abstracted to an opaque token. -/
abbrev Root := Nat

/-- Raw byte strings (pubkeys, signatures, credentials). -/
abbrev Bytes := List Nat

/-- The error kinds produced by the embedded functions (§7 of the spec). -/
inductive Err where
  | nilBlock
  | nilState
  | nilDepositOrData
  | nilEth1Data
  | nilDepositInBlock
  | nilExit
  | merkleBranchFailed (root : Root)
  | pubkeyParse
  | depositSigFailed
  | batchSigFailed
  | oobIndex (idx n : Nat)
  | nonActiveValidator
  | alreadyExited (idx exitEpoch : Nat)
  | expectedCurrentGEExitEpoch (cur ex : Nat)
  | cannotExitYet (cur req : Nat)
  | expectedSlotLess (s target : Nat)
  | stateRootMismatch (got want : Root)
  | unrecognizedField
  | wrongElemType
  | unsupportedType
  | layerMismatch
  | seedFailure
  deriving DecidableEq

namespace Config

/-- Mainnet preset SLOTS_PER_EPOCH. -/
def slotsPerEpoch : Nat := 32

/-- Mainnet preset SLOTS_PER_HISTORICAL_ROOT. -/
def slotsPerHistoricalRoot : Nat := 8192

/-- Mainnet preset TARGET_COMMITTEE_SIZE. -/
def targetCommitteeSize : Nat := 128

/-- Mainnet preset MAX_COMMITTEES_PER_SLOT. -/
def maxCommitteesPerSlot : Nat := 64

/-- FAR_FUTURE_EPOCH = 2^64 - 1. -/
def farFutureEpoch : Nat := 2 ^ 64 - 1

/-- Mainnet preset SHARD_COMMITTEE_PERIOD. -/
def shardCommitteePeriod : Nat := 256

/-- DEPOSIT_CONTRACT_TREE_DEPTH. -/
def depositContractTreeDepth : Nat := 32

/-- EFFECTIVE_BALANCE_INCREMENT in gwei. -/
def effectiveBalanceIncrement : Nat := 1000000000

/-- MAX_EFFECTIVE_BALANCE in gwei. -/
def maxEffectiveBalance : Nat := 32000000000

/-- The all-zero 32-byte hash. -/
def zeroHash : Root := 0

end Config

/-- eth1 data carried by the state (deposit root / count / block hash). -/
structure Eth1Data where
  depositRoot : Root
  depositCount : Nat
  blockHash : Root := 0
  deriving DecidableEq

/-- Beacon block header; `stateRoot` is `none` when the Go slice is nil. -/
structure BlockHeader where
  slot : Nat := 0
  proposerIndex : Nat := 0
  parentRoot : Root := 0
  stateRoot : Option Root := none
  bodyRoot : Root := 0
  deriving DecidableEq

/-- Validator registry entry. -/
structure Validator where
  publicKey : Bytes
  withdrawalCredentials : Bytes := []
  effectiveBalance : Nat := 0
  slashed : Bool := false
  activationEligibilityEpoch : Nat := 0
  activationEpoch : Nat := 0
  exitEpoch : Nat := 0
  withdrawableEpoch : Nat := 0
  deriving DecidableEq

/-- Deposit data: the leaf of the deposit contract tree. -/
structure DepositData where
  publicKey : Bytes
  withdrawalCredentials : Bytes := []
  amount : Nat := 0
  signature : Bytes := []
  deriving DecidableEq

/-- A deposit: Merkle proof plus (possibly nil) data. -/
structure Deposit where
  proof : List Root
  data : Option DepositData
  deriving DecidableEq

/-- Attestation checkpoint (epoch, root). -/
structure Checkpoint where
  epoch : Nat := 0
  root : Root := 0
  deriving DecidableEq

/-- Attestation data. -/
structure AttestationData where
  slot : Nat := 0
  committeeIndex : Nat := 0
  beaconBlockRoot : Root := 0
  source : Option Checkpoint := none
  target : Option Checkpoint := none
  deriving DecidableEq

/-- Pending attestation stored in the state. -/
structure PendingAttestation where
  aggregationBits : Bytes := []
  data : Option AttestationData := none
  inclusionDelay : Nat := 0
  proposerIndex : Nat := 0
  deriving DecidableEq

/-- Voluntary exit request. -/
structure VoluntaryExit where
  epoch : Nat := 0
  validatorIndex : Nat := 0
  deriving DecidableEq

/-- Signed voluntary exit; `exit` is `none` when the Go pointer is nil. -/
structure SignedVoluntaryExit where
  exit : Option VoluntaryExit
  signature : Bytes := []
  deriving DecidableEq

/-- The beacon state, restricted to the fields the embedded operations read
or write; all remaining fields are untouched by those operations. -/
structure BeaconState where
  slot : Nat := 0
  eth1Data : Option Eth1Data := none
  eth1DepositIndex : Nat := 0
  validators : List Validator := []
  balances : List Nat := []
  stateRoots : List Root := []
  blockRoots : List Root := []
  latestBlockHeader : BlockHeader := {}
  deriving DecidableEq

/-- Beacon block body (the operations the embedded processors consume). -/
structure BeaconBlockBody where
  deposits : List (Option Deposit) := []
  voluntaryExits : List (Option SignedVoluntaryExit) := []
  deriving DecidableEq

/-- Beacon block; `body` is `none` when the Go pointer is nil. -/
structure BeaconBlock where
  slot : Nat := 0
  proposerIndex : Nat := 0
  parentRoot : Root := 0
  stateRoot : Root := 0
  body : Option BeaconBlockBody := none
  deriving DecidableEq

/-- Signed beacon block; `block` is `none` when the Go pointer is nil. -/
structure SignedBeaconBlock where
  block : Option BeaconBlock
  signature : Bytes := []
  deriving DecidableEq

/-- The external primitives the spec assumes (§1, §6): SSZ hash-tree-roots of
leaf objects, SHA-256 pair hashing, BLS verification, domains / signing
roots, seeds and the swap-or-not shuffle.  Every embedded function takes an
`Env` so the theorems quantify over all implementations of the primitives. -/
structure Env where
  hash2 : Root → Root → Root
  htrState : BeaconState → Root
  htrHeader : BlockHeader → Root
  htrDepositData : DepositData → Root
  bytesToRoot : Bytes → Root
  eth1DataRoot : Eth1Data → Root
  validatorRoot : Validator → Root
  pendingAttRoot : PendingAttestation → Root
  blsVerify : Bytes → Root → Bytes → Bool
  pubkeyValid : Bytes → Bool
  signingRootDeposit : DepositData → Bytes → Root
  depositDomain : Bytes
  attesterSeed : BeaconState → Nat → Except Err Root
  unshuffleList : List Nat → Root → Except Err (List Nat)

/-- Folds a Merkle proof from the leaf up, choosing the hash order from the
bits of the generalized index, exactly as is_valid_merkle_branch does. -/
def merkleNodeFromBranch (env : Env) (index : Nat) : Root → Nat → List Root → Root
  | node, _, [] => node
  | node, i, p :: rest =>
      merkleNodeFromBranch env index
        (if (index / 2 ^ i) % 2 = 1 then env.hash2 p node else env.hash2 node p)
        (i + 1) rest

/-- Modelled from the spec: `trieutil.VerifyMerkleBranch` (package
shared/trieutil, which is not under the embedded source tree).  It verifies
an is_valid_merkle_branch proof over `depth + 1` levels — the extra level is
the deposit list-length mix-in — and demands that the proof have exactly
`depth + 1` nodes. -/
def VerifyMerkleBranch (env : Env) (root : Root) (item : Root) (merkleIndex : Nat)
    (proof : List Root) (depth : Nat) : Bool :=
  if proof.length ≠ depth + 1 then false
  else merkleNodeFromBranch env merkleIndex item 0 proof == root

/-- The state's pubkey → validator-index map: first index whose registry
entry carries the given pubkey (the map is bijective with the registry). -/
def validatorIndexByPubkey : List Validator → Bytes → Option Nat
  | [], _ => none
  | v :: vs, pk =>
      if v.publicKey = pk then some 0
      else (validatorIndexByPubkey vs pk).map (· + 1)

/-- Modelled from the spec: `helpers.IncreaseBalance` (increase_balance):
adds `amount` to `balances[index]`, failing when the index is out of
bounds of the balances list. -/
def IncreaseBalance (st : BeaconState) (index amount : Nat) : Except Err BeaconState :=
  if h : index < st.balances.length then
    .ok { st with balances := st.balances.set index (st.balances.get ⟨index, h⟩ + amount) }
  else .error (.oobIndex index st.balances.length)

/-- `verifyDeposit`: Merkle-proof check of `hash_tree_root(deposit.data)`
against `state.eth1_data.deposit_root` at position `state.eth1_deposit_index`
(deposit.go). -/
def verifyDeposit (env : Env) (beaconState : BeaconState) (deposit : Option Deposit) :
    Except Err Unit :=
  match deposit with
  | none => .error .nilDepositOrData
  | some dep =>
    match dep.data with
    | none => .error .nilDepositOrData
    | some data =>
      match beaconState.eth1Data with
      | none => .error .nilEth1Data
      | some eth1 =>
        if VerifyMerkleBranch env eth1.depositRoot (env.htrDepositData data)
            beaconState.eth1DepositIndex dep.proof Config.depositContractTreeDepth
        then .ok ()
        else .error (.merkleBranchFailed eth1.depositRoot)

/-- Modelled from the spec: `depositutil.VerifyDepositSignature` (package
shared/depositutil, not under the embedded source tree): decode the pubkey,
compute the signing root of the DepositMessage under the deposit domain and
BLS-verify the deposit signature. -/
def verifyDepositDataSigningRoot (env : Env) (data : DepositData) (domain : Bytes) :
    Except Err Unit :=
  if env.pubkeyValid data.publicKey then
    if env.blsVerify data.publicKey (env.signingRootDeposit data domain) data.signature
    then .ok ()
    else .error .depositSigFailed
  else .error .pubkeyParse

/-- The registry entry `ProcessDeposit` appends for an unknown pubkey
(deposit.go lines 169-181). -/
def validatorFromDeposit (data : DepositData) : Validator :=
  let effectiveBalance := data.amount - data.amount % Config.effectiveBalanceIncrement
  { publicKey := data.publicKey
    withdrawalCredentials := data.withdrawalCredentials
    activationEligibilityEpoch := Config.farFutureEpoch
    activationEpoch := Config.farFutureEpoch
    exitEpoch := Config.farFutureEpoch
    withdrawableEpoch := Config.farFutureEpoch
    effectiveBalance :=
      if Config.maxEffectiveBalance < effectiveBalance then Config.maxEffectiveBalance
      else effectiveBalance }

/-- `ProcessDeposit` (deposit.go).  The result pair is Go's
`(returned-or-mutated state, error)`: when the Merkle proof fails the
receiver has not been touched, afterwards the deposit index is bumped before
any further check, so later outcomes carry the bump. -/
def ProcessDeposit (env : Env) (beaconState : BeaconState) (deposit : Option Deposit)
    (verifySignature : Bool) : BeaconState × Option Err :=
  match verifyDeposit env beaconState deposit with
  | .error e => (beaconState, some e)
  | .ok _ =>
    match deposit with
    | none => (beaconState, some .nilDepositOrData)
    | some dep =>
      match dep.data with
      | none => (beaconState, some .nilDepositOrData)
      | some data =>
        let st1 := { beaconState with eth1DepositIndex := beaconState.eth1DepositIndex + 1 }
        match validatorIndexByPubkey st1.validators data.publicKey with
        | none =>
          if verifySignature then
            match verifyDepositDataSigningRoot env data env.depositDomain with
            | .error _ => (st1, none)
            | .ok _ =>
              ({ st1 with validators := st1.validators ++ [validatorFromDeposit data]
                          balances := st1.balances ++ [data.amount] }, none)
          else
            ({ st1 with validators := st1.validators ++ [validatorFromDeposit data]
                        balances := st1.balances ++ [data.amount] }, none)
        | some index =>
          match IncreaseBalance st1 index data.amount with
          | .ok st2 => (st2, none)
          | .error e => (st1, some e)

/-- The per-deposit items (pubkey, signing root, signature) that
`verifyDepositDataWithDomain` collects before its aggregate check
(deposit.go lines 236-259); fails on a nil deposit or an undecodable
pubkey. -/
def collectDepositSigItems (env : Env) (domain : Bytes) :
    List (Option Deposit) → Except Err (List (Bytes × Root × Bytes))
  | [] => .ok []
  | none :: _ => .error .nilDepositOrData
  | some dep :: rest =>
    match dep.data with
    | none => .error .nilDepositOrData
    | some data =>
      if env.pubkeyValid data.publicKey then
        (collectDepositSigItems env domain rest).map
          (fun tail => (data.publicKey, env.signingRootDeposit data domain, data.signature) :: tail)
      else .error .pubkeyParse

/-- Modelled from the spec: the BLS `verify_multiple(sigs, msgs, pks)`
primitive of §6 — the aggregate verification succeeds exactly when every
individual (pubkey, message, signature) triple verifies. -/
def VerifyMultipleSignatures (env : Env) (items : List (Bytes × Root × Bytes)) : Bool :=
  items.all fun item => env.blsVerify item.1 item.2.1 item.2.2

/-- `verifyDepositDataWithDomain` (deposit.go): one aggregated BLS check over
all deposit signatures of a block. -/
def verifyDepositDataWithDomain (env : Env) (deps : List (Option Deposit)) (domain : Bytes) :
    Except Err Unit :=
  if deps.length = 0 then .ok ()
  else
    match collectDepositSigItems env domain deps with
    | .error e => .error e
    | .ok items =>
      if VerifyMultipleSignatures env items then .ok ()
      else .error .batchSigFailed

/-- Modelled from the spec: `helpers.VerifyNilBeaconBlock` — rejects a nil
signed block, nil inner block or nil body, and otherwise exposes the body. -/
def VerifyNilBeaconBlock : Option SignedBeaconBlock → Except Err BeaconBlockBody
  | none => .error .nilBlock
  | some sb =>
    match sb.block with
    | none => .error .nilBlock
    | some blk =>
      match blk.body with
      | none => .error .nilBlock
      | some body => .ok body

/-- The per-deposit loop of `ProcessDeposits` (deposit.go lines 92-100):
rejects nil deposits, threads the mutated state, stops at the first error. -/
def processDepositList (env : Env) :
    BeaconState → List (Option Deposit) → Bool → BeaconState × Option Err
  | st, [], _ => (st, none)
  | st, d :: rest, verifySignature =>
    match d with
    | none => (st, some .nilDepositInBlock)
    | some dep =>
      match dep.data with
      | none => (st, some .nilDepositInBlock)
      | some _ =>
        match ProcessDeposit env st (some dep) verifySignature with
        | (st1, none) => processDepositList env st1 rest verifySignature
        | (st1, some e) => (st1, some e)

/-- `ProcessDeposits` (deposit.go): attempt one aggregated signature check;
on failure fall back to per-deposit signature verification; then run the
per-deposit loop. -/
def ProcessDeposits (env : Env) (beaconState : BeaconState) (b : Option SignedBeaconBlock) :
    BeaconState × Option Err :=
  match VerifyNilBeaconBlock b with
  | .error e => (beaconState, some e)
  | .ok body =>
    let deposits := body.deposits
    let verifySignature :=
      match verifyDepositDataWithDomain env deposits env.depositDomain with
      | .ok _ => false
      | .error _ => true
    processDepositList env beaconState deposits verifySignature

/-- compute_epoch_at_slot: slot / SLOTS_PER_EPOCH. -/
def SlotToEpoch (slot : Nat) : Nat := slot / Config.slotsPerEpoch

/-- Modelled from the spec: `helpers.IsActiveValidatorUsingTrie` — a
validator is active at epoch `e` iff activation_epoch ≤ e < exit_epoch. -/
def IsActiveValidator (v : Validator) (epoch : Nat) : Bool :=
  decide (v.activationEpoch ≤ epoch) && decide (epoch < v.exitEpoch)

/-- The message constant `ValidatorCannotExitYetMsg` of exit.go. -/
def ValidatorCannotExitYetMsg : String :=
  "validator has not been active long enough to exit"

/-- The message `verifyExitConditions` formats for each error it returns. -/
def exitErrMessage : Err → String
  | .cannotExitYet cur req =>
      ValidatorCannotExitYetMsg ++ ": " ++ toString cur ++ " epochs vs required "
        ++ toString req ++ " epochs"
  | .nonActiveValidator => "non-active validator cannot exit"
  | _ => ""

/-- `verifyExitConditions` (exit.go lines 132-156): the non-signature
validation of a voluntary exit.  The activation-period sum is a uint64
addition in Go, hence the explicit `% 2^64`. -/
def verifyExitConditions (validator : Validator) (currentSlot : Nat) (exit : VoluntaryExit) :
    Except Err Unit :=
  if ¬ IsActiveValidator validator (SlotToEpoch currentSlot) then .error .nonActiveValidator
  else if validator.exitEpoch ≠ Config.farFutureEpoch then
    .error (.alreadyExited exit.validatorIndex validator.exitEpoch)
  else if SlotToEpoch currentSlot < exit.epoch then
    .error (.expectedCurrentGEExitEpoch (SlotToEpoch currentSlot) exit.epoch)
  else if SlotToEpoch currentSlot <
      (validator.activationEpoch + Config.shardCommitteePeriod) % 2 ^ 64 then
    .error (.cannotExitYet (SlotToEpoch currentSlot)
      ((validator.activationEpoch + Config.shardCommitteePeriod) % 2 ^ 64))
  else .ok ()

/-- Modelled from the spec: the stateV0 setter `UpdateStateRootAtIndex` —
writes a root into the circular `state_roots` buffer, failing when the
index is outside the buffer. -/
def updateStateRootAtIndex (st : BeaconState) (idx : Nat) (r : Root) : Except Err BeaconState :=
  if idx < st.stateRoots.length then .ok { st with stateRoots := st.stateRoots.set idx r }
  else .error (.oobIndex idx st.stateRoots.length)

/-- Modelled from the spec: the stateV0 setter `UpdateBlockRootAtIndex` —
writes a root into the circular `block_roots` buffer, failing when the
index is outside the buffer. -/
def updateBlockRootAtIndex (st : BeaconState) (idx : Nat) (r : Root) : Except Err BeaconState :=
  if idx < st.blockRoots.length then .ok { st with blockRoots := st.blockRoots.set idx r }
  else .error (.oobIndex idx st.blockRoots.length)

/-- `ProcessSlot` (part_000 lines 232-270): cache the state root, backfill a
zero latest-block-header state root, cache the block root (the previous
state root is `env.htrState state`, computed before the buffer write, which
leaves it unchanged). -/
def ProcessSlot (env : Env) (state : BeaconState) : Except Err BeaconState :=
  match updateStateRootAtIndex state (state.slot % Config.slotsPerHistoricalRoot)
      (env.htrState state) with
  | .error e => .error e
  | .ok st =>
    if st.latestBlockHeader.stateRoot = none ∨
        st.latestBlockHeader.stateRoot = some Config.zeroHash then
      updateBlockRootAtIndex
        { st with latestBlockHeader :=
            { st.latestBlockHeader with stateRoot := some (env.htrState state) } }
        (st.slot % Config.slotsPerHistoricalRoot)
        (env.htrHeader { st.latestBlockHeader with stateRoot := some (env.htrState state) })
    else
      updateBlockRootAtIndex st (st.slot % Config.slotsPerHistoricalRoot)
        (env.htrHeader st.latestBlockHeader)

/-- `CanProcessEpoch` (part_000 lines 618-620). -/
def CanProcessEpoch (state : BeaconState) : Bool :=
  (state.slot + 1) % Config.slotsPerEpoch == 0

/-- The epoch transition (`ProcessEpochPrecompute`), taken as a parameter:
its body lives outside the embedded files.  It carries the fact that epoch
processing never changes the slot, which the Go epoch processor satisfies
(none of its six phases writes `state.slot`). -/
structure EpochFn where
  fn : BeaconState → Except Err BeaconState
  preservesSlot : ∀ s s', fn s = .ok s' → s'.slot = s.slot

/-- The skip-slot loop of `ProcessSlots` (part_000 lines 365-392).  The Go
`for state.Slot() < slot` loop is driven here by fuel; `ProcessSlots` passes
`slot - state.slot`, which under slot preservation of `ProcessSlot` and of
the epoch transition makes the fuel run out exactly when the loop condition
turns false. -/
def processSlotsLoop (env : Env) (pe : EpochFn) :
    Nat → BeaconState → Nat → Except Err BeaconState
  | 0, state, _ => .ok state
  | fuel + 1, state, slot =>
    if state.slot < slot then
      match ProcessSlot env state with
      | .error e => .error e
      | .ok st1 =>
        match (if CanProcessEpoch st1 then pe.fn st1 else .ok st1) with
        | .error e => .error e
        | .ok st2 => processSlotsLoop env pe fuel { st2 with slot := st2.slot + 1 } slot
    else .ok state

/-- The skip-slot-cache adoption step of `ProcessSlots` (part_000 lines
342-345): a cached state strictly below the target replaces the input. -/
def adoptCached (cached : Option BeaconState) (state : BeaconState) (slot : Nat) : BeaconState :=
  match cached with
  | some c => if c.slot < slot then c else state
  | none => state

/-- `ProcessSlots` (part_000 lines 315-402).  The process-wide skip-slot
cache is passed in as the value its `Get` returns; the cache `Put` and the
in-progress marking are external effects that do not alter the returned
state. -/
def ProcessSlots (env : Env) (pe : EpochFn) (cached : Option BeaconState)
    (state : Option BeaconState) (slot : Nat) : Except Err BeaconState :=
  match state with
  | none => .error .nilState
  | some st =>
    if st.slot ≥ slot then .error (.expectedSlotLess st.slot slot)
    else
      processSlotsLoop env pe (slot - (adoptCached cached st slot).slot)
        (adoptCached cached st slot) slot

/-- One iteration of the skip-slot loop, as the spec words it: process_slot;
epoch transition iff `(slot + 1) % SLOTS_PER_EPOCH == 0`; slot += 1.  Stated
separately so the claim that the loop performs exactly this step once per
slot is a theorem about `ProcessSlots`, not its definition. -/
def slotStep (env : Env) (pe : EpochFn) (state : BeaconState) : Except Err BeaconState :=
  match ProcessSlot env state with
  | .error e => .error e
  | .ok st1 =>
    match (if CanProcessEpoch st1 then pe.fn st1 else .ok st1) with
    | .error e => .error e
    | .ok st2 => .ok { st2 with slot := st2.slot + 1 }

/-- `n`-fold composition of `slotStep`. -/
def iterateStep (env : Env) (pe : EpochFn) : Nat → BeaconState → Except Err BeaconState
  | 0, state => .ok state
  | n + 1, state =>
    match slotStep env pe state with
    | .error e => .error e
    | .ok st1 => iterateStep env pe n st1

/-- `ExecuteStateTransition` (part_000 lines 63-102).  Slot processing and
block processing are parameters (`ProcessSlots` above instantiates the
first; the block pipeline is composed of processors outside the embedded
files).  The result pair is Go's `(state, error)` return: on a post-state
root mismatch the computed post-state is returned together with the error. -/
def ExecuteStateTransition (env : Env)
    (psFn : Option BeaconState → Nat → Except Err BeaconState)
    (pbFn : BeaconState → Option SignedBeaconBlock → Except Err BeaconState)
    (state : Option BeaconState) (signed : Option SignedBeaconBlock) :
    Option BeaconState × Option Err :=
  match signed with
  | none => (none, some .nilBlock)
  | some sb =>
    match sb.block with
    | none => (none, some .nilBlock)
    | some blk =>
      match psFn state blk.slot with
      | .error e => (none, some e)
      | .ok st1 =>
        match pbFn st1 signed with
        | .error e => (none, some e)
        | .ok st2 =>
          let postStateRoot := env.htrState st2
          if postStateRoot = blk.stateRoot then (some st2, none)
          else (some st2, some (.stateRootMismatch postStateRoot blk.stateRoot))

/-- `CalculateStateRoot` (part_000 lines 172-214), over an explicit heap: Go
states are pointers, so the store is a list of state values and the caller's
state is an index into it.  `state = state.Copy()` allocates a fresh cell at
the end of the store and every subsequent write lands there, which is the
whole content of the non-mutation contract. -/
def CalculateStateRoot (env : Env)
    (psFn : BeaconState → Nat → Except Err BeaconState)
    (pbFn : BeaconState → Option SignedBeaconBlock → Except Err BeaconState)
    (store : List BeaconState) (stateRef : Option Nat) (signed : Option SignedBeaconBlock) :
    List BeaconState × Except Err Root :=
  match stateRef with
  | none => (store, .error .nilState)
  | some r =>
    match signed with
    | none => (store, .error .nilBlock)
    | some sb =>
      match sb.block with
      | none => (store, .error .nilBlock)
      | some blk =>
        match store[r]? with
        | none => (store, .error .nilState)
        | some st =>
          let copyRef := store.length
          let store1 := store ++ [st]
          match psFn st blk.slot with
          | .error e => (store1, .error e)
          | .ok st1 =>
            let store2 := store1.set copyRef st1
            match pbFn st1 signed with
            | .error e => (store2, .error e)
            | .ok st2 => (store2.set copyRef st2, .ok (env.htrState st2))

/-- `SlotCommitteeCount` (committee.go lines 41-52):
max(1, min(MAX_COMMITTEES_PER_SLOT, n / SLOTS_PER_EPOCH / TARGET_COMMITTEE_SIZE)). -/
def SlotCommitteeCount (activeValidatorCount : Nat) : Nat :=
  let committeePerSlot :=
    activeValidatorCount / Config.slotsPerEpoch / Config.targetCommitteeSize
  if committeePerSlot > Config.maxCommitteesPerSlot then Config.maxCommitteesPerSlot
  else if committeePerSlot = 0 then 1
  else committeePerSlot

/-- `ShuffledIndices` (committee.go lines 271-289): seed for the epoch, the
active validator indices in registry order, then the optimized unshuffle. -/
def ShuffledIndices (env : Env) (st : BeaconState) (epoch : Nat) :
    Except Err (List Nat) := do
  let seed ← env.attesterSeed st epoch
  let indices :=
    ((List.range st.validators.length).zip st.validators).filterMap
      fun iv => if IsActiveValidator iv.2 epoch then some iv.1 else none
  env.unshuffleList indices seed

/-- Insertion into a sorted list of indices (ascending). -/
def insertSorted (x : Nat) : List Nat → List Nat
  | [] => [x]
  | y :: ys => if x ≤ y then x :: y :: ys else y :: insertSorted x ys

/-- The ascending sort `UpdateCommitteeCache` applies to obtain
`SortedIndices` (committee.go lines 314-318). -/
def sortIndices : List Nat → List Nat
  | [] => []
  | x :: xs => insertSorted x (sortIndices xs)

/-- A committee-cache entry: shuffled indices, committee count, seed and
sorted indices (cache.Committees). -/
structure Committees where
  shuffledIndices : List Nat
  committeeCount : Nat
  seed : Root
  sortedIndices : List Nat
  deriving DecidableEq

/-- Modelled from the spec: the committee cache — a size-bounded FIFO keyed
by seed (§4.C); entries are immutable once inserted. -/
structure CommitteeCache where
  entries : List Committees
  maxSize : Nat
  deriving DecidableEq

/-- Membership test of the committee cache, keyed by seed. -/
def CommitteeCache.hasEntry (c : CommitteeCache) (seed : Root) : Bool :=
  c.entries.any fun e => e.seed == seed

/-- Modelled from the spec: `AddCommitteeShuffledList` — FIFO insert that
drops the oldest entries beyond the capacity. -/
def CommitteeCache.add (c : CommitteeCache) (e : Committees) : CommitteeCache :=
  let es := c.entries ++ [e]
  { c with entries := es.drop (es.length - c.maxSize) }

/-- The body of `UpdateCommitteeCache`'s loop for one epoch `e`
(committee.go lines 295-327), minus the early `return nil` on a cache hit,
which the caller below replays: seed, shuffled indices, committee count,
sorted indices, insert. -/
def committeeEntryForEpoch (env : Env) (st : BeaconState) (e : Nat) (seed : Root) :
    Except Err Committees :=
  match ShuffledIndices env st e with
  | .error err => .error err
  | .ok shuffledIndices =>
    .ok { shuffledIndices := shuffledIndices
          committeeCount := Config.slotsPerEpoch * SlotCommitteeCount shuffledIndices.length
          seed := seed
          sortedIndices := sortIndices shuffledIndices }

/-- `UpdateCommitteeCache` (committee.go lines 293-331) with its two-epoch
loop `for e in [epoch, epoch+1]` unrolled.  Note the loop body's
`if committeeCache.HasEntry(seed) { return nil }` returns from the whole
function, not from the iteration. -/
def UpdateCommitteeCache (env : Env) (st : BeaconState) (epoch : Nat)
    (cache : CommitteeCache) : Except Err CommitteeCache :=
  match env.attesterSeed st epoch with
  | .error e => .error e
  | .ok seed0 =>
    if cache.hasEntry seed0 then .ok cache
    else
      match committeeEntryForEpoch env st epoch seed0 with
      | .error e => .error e
      | .ok entry0 =>
        match env.attesterSeed st (epoch + 1) with
        | .error e => .error e
        | .ok seed1 =>
          if (cache.add entry0).hasEntry seed1 then .ok (cache.add entry0)
          else
            match committeeEntryForEpoch env st (epoch + 1) seed1 with
            | .error e => .error e
            | .ok entry1 => .ok ((cache.add entry0).add entry1)

/-- The state field indices of the fixed ordered field list (§3). -/
inductive fieldIndex where
  | genesisTime
  | genesisValidatorsRoot
  | slotField
  | forkField
  | latestBlockHeaderField
  | blockRoots
  | stateRoots
  | historicalRoots
  | eth1DataField
  | eth1DataVotes
  | eth1DepositIndexField
  | validators
  | balancesField
  | randaoMixes
  | slashingsField
  | previousEpochAttestations
  | currentEpochAttestations
  | justificationBits
  | previousJustifiedCheckpoint
  | currentJustifiedCheckpoint
  | finalizedCheckpoint
  deriving DecidableEq

/-- The trie data kinds of stateV0. -/
inductive dataType where
  | basicArray
  | compositeArray
  deriving DecidableEq

/-- Modelled from the spec (§4.A): the stateV0 `fieldMap` — which field
indices carry a field trie, and whether it is a basic byte-root array or a
composite array with a length mix-in. -/
def fieldMap : fieldIndex → Option dataType
  | .blockRoots => some .basicArray
  | .stateRoots => some .basicArray
  | .randaoMixes => some .basicArray
  | .eth1DataVotes => some .compositeArray
  | .validators => some .compositeArray
  | .previousEpochAttestations => some .compositeArray
  | .currentEpochAttestations => some .compositeArray
  | _ => none

/-- The element slices a converter may receive: Go's `interface{}` argument
restricted to the types the type switch of `fieldConverters` names. -/
inductive Elements where
  | byteArrays (v : List Bytes)
  | eth1Datas (v : List Eth1Data)
  | validatorList (v : List Validator)
  | pendingAtts (v : List PendingAttestation)
  deriving DecidableEq

/-- The number of elements a converter sees. -/
def elemsLen : Elements → Nat
  | .byteArrays v => v.length
  | .eth1Datas v => v.length
  | .validatorList v => v.length
  | .pendingAtts v => v.length

/-- The shared index loop of the four converters (field_trie.go): for each
changed index, reject it when it exceeds the last element position
(`idx > len(val)-1`), else emit the leaf root at that index. -/
def rootsAt (conv : Nat → Root) (n : Nat) : List Nat → Except Err (List Root)
  | [] => .ok []
  | idx :: rest =>
    if n ≤ idx then .error (.oobIndex idx n)
    else (rootsAt conv n rest).map fun tail => conv idx :: tail

/-- `handleByteArrays` (field_trie.go lines 178-203): note the bound check
runs only under `len(val) > 0`. -/
def handleByteArrays (env : Env) (val : List Bytes) (indices : List Nat)
    (convertAll : Bool) : Except Err (List Root) :=
  if convertAll then .ok (val.map env.bytesToRoot)
  else if val.length = 0 then .ok []
  else rootsAt (fun i => env.bytesToRoot (val.getD i [])) val.length indices

/-- `handleEth1DataSlice` (field_trie.go lines 205-241). -/
def handleEth1DataSlice (env : Env) (val : List Eth1Data) (indices : List Nat)
    (convertAll : Bool) : Except Err (List Root) :=
  if convertAll then .ok (val.map env.eth1DataRoot)
  else if val.length = 0 then .ok []
  else rootsAt (fun i => env.eth1DataRoot (val.getD i {depositRoot := 0, depositCount := 0}))
    val.length indices

/-- `handleValidatorSlice` (field_trie.go lines 243-279). -/
def handleValidatorSlice (env : Env) (val : List Validator) (indices : List Nat)
    (convertAll : Bool) : Except Err (List Root) :=
  if convertAll then .ok (val.map env.validatorRoot)
  else if val.length = 0 then .ok []
  else rootsAt (fun i => env.validatorRoot (val.getD i {publicKey := []})) val.length indices

/-- `handlePendingAttestation` (field_trie.go lines 281-317). -/
def handlePendingAttestation (env : Env) (val : List PendingAttestation) (indices : List Nat)
    (convertAll : Bool) : Except Err (List Root) :=
  if convertAll then .ok (val.map env.pendingAttRoot)
  else if val.length = 0 then .ok []
  else rootsAt (fun i => env.pendingAttRoot (val.getD i {})) val.length indices

/-- `fieldConverters` (field_trie.go lines 143-176): dispatch on the field
index, reject an element slice of the wrong type, reject unsupported
fields. -/
def fieldConverters (env : Env) (field : fieldIndex) (indices : List Nat)
    (elements : Elements) (convertAll : Bool) : Except Err (List Root) :=
  match field with
  | .blockRoots | .stateRoots | .randaoMixes =>
    match elements with
    | .byteArrays v => handleByteArrays env v indices convertAll
    | _ => .error .wrongElemType
  | .eth1DataVotes =>
    match elements with
    | .eth1Datas v => handleEth1DataSlice env v indices convertAll
    | _ => .error .wrongElemType
  | .validators =>
    match elements with
    | .validatorList v => handleValidatorSlice env v indices convertAll
    | _ => .error .wrongElemType
  | .previousEpochAttestations | .currentEpochAttestations =>
    match elements with
    | .pendingAtts v => handlePendingAttestation env v indices convertAll
    | _ => .error .wrongElemType
  | _ => .error .unsupportedType

/-- The field trie: the layers of the Merkle tree of one state field plus
the field tag (field_trie.go; the refcount and lock are concurrency
machinery with no bearing on the recomputation result). -/
structure FieldTrie where
  field : fieldIndex
  fieldLayers : List (List Root)
  deriving DecidableEq

/-- Pairwise hash of one layer with zero-hash padding for an odd tail. -/
def pairHash (env : Env) : List Root → List Root
  | [] => []
  | [a] => [env.hash2 a Config.zeroHash]
  | a :: b :: rest => env.hash2 a b :: pairHash env rest

/-- Rebuild `n` layers above the given leaf layer. -/
def buildUpper (env : Env) : Nat → List Root → List (List Root)
  | 0, layer => [layer]
  | n + 1, layer => layer :: buildUpper env n (pairHash env layer)

/-- Writes the recomputed leaf roots at the changed indices into the leaf
layer; fails when a changed index has no matching leaf root or lies outside
the layer. -/
def setLeaves : List Root → List Nat → List Root → Except Err (List Root)
  | layer0, [], [] => .ok layer0
  | layer0, idx :: irest, leaf :: lrest =>
    if idx < layer0.length then setLeaves (layer0.set idx leaf) irest lrest
    else .error (.oobIndex idx layer0.length)
  | _, _, _ => .error .layerMismatch

/-- Modelled from the spec: `stateutil.RecomputeFromLayer` (package
beacon-chain/state/stateutil, file trie_helpers.go, not under the embedded
source tree): place the recomputed leaf roots at the changed indices and
rehash upwards, failing on an index with no leaf root or outside the leaf
layer. -/
def RecomputeFromLayer (env : Env) (leaves : List Root) (indices : List Nat)
    (layers : List (List Root)) : Except Err (Root × List (List Root)) :=
  match layers with
  | [] => .error .layerMismatch
  | layer0 :: upper =>
    match setLeaves layer0 indices leaves with
    | .error e => .error e
    | .ok layer0' =>
      let layers' := buildUpper env upper.length layer0'
      match layers'.getLast? with
      | none => .error .layerMismatch
      | some top =>
        match top.head? with
        | none => .error .layerMismatch
        | some root => .ok (root, layers')

/-- Modelled from the spec: `stateutil.RecomputeFromLayerVariable` — the
variable-length-list variant; the caller mixes the length in afterwards. -/
def RecomputeFromLayerVariable (env : Env) (leaves : List Root) (indices : List Nat)
    (layers : List (List Root)) : Except Err (Root × List (List Root)) :=
  RecomputeFromLayer env leaves indices layers

/-- Modelled from the spec: `stateutil.AddInMixin` — mixes the list length
into a variable-length field's root. -/
def AddInMixin (env : Env) (root : Root) (len : Nat) : Root :=
  env.hash2 root len

/-- `TrieRoot` (field_trie.go lines 126-140): the cached top hash, with the
length mix-in for composite fields. -/
def TrieRoot (env : Env) (f : FieldTrie) : Except Err Root :=
  match fieldMap f.field with
  | none => .error .unrecognizedField
  | some .basicArray =>
    match f.fieldLayers.getLast? with
    | none => .error .layerMismatch
    | some top =>
      match top.head? with
      | none => .error .layerMismatch
      | some r => .ok r
  | some .compositeArray =>
    match f.fieldLayers.getLast? with
    | none => .error .layerMismatch
    | some top =>
      match top.head? with
      | none => .error .layerMismatch
      | some r =>
        match f.fieldLayers.head? with
        | none => .error .layerMismatch
        | some layer0 => .ok (AddInMixin env r layer0.length)

/-- `RecomputeTrie` (field_trie.go lines 68-100): convert the changed
elements to leaf roots and rebuild the affected branches, mixing in the
length for composite fields. -/
def RecomputeTrie (env : Env) (f : FieldTrie) (indices : List Nat) (elements : Elements) :
    Except Err (Root × FieldTrie) :=
  if indices.length = 0 then
    match TrieRoot env f with
    | .error e => .error e
    | .ok r => .ok (r, f)
  else
    match fieldMap f.field with
    | none => .error .unrecognizedField
    | some dt =>
      match fieldConverters env f.field indices elements false with
      | .error e => .error e
      | .ok fieldRoots =>
        match dt with
        | .basicArray =>
          match RecomputeFromLayer env fieldRoots indices f.fieldLayers with
          | .error e => .error e
          | .ok rl => .ok (rl.1, { f with fieldLayers := rl.2 })
        | .compositeArray =>
          match RecomputeFromLayerVariable env fieldRoots indices f.fieldLayers with
          | .error e => .error e
          | .ok rl =>
            match rl.2.head? with
            | none => .error .layerMismatch
            | some layer0 =>
              .ok (AddInMixin env rl.1 layer0.length, { f with fieldLayers := rl.2 })

/-- Whether a deposit's BLS signature verifies under the deposit domain
(the predicate both the aggregate pre-check and the per-deposit check of
deposit.go decide). -/
def depositSigValid (env : Env) (data : DepositData) : Bool :=
  env.blsVerify data.publicKey (env.signingRootDeposit data env.depositDomain) data.signature

/-- Packs a proof/data pair into the (non-nil) deposit it denotes. -/
def mkSomeDeposit (pd : List Root × DepositData) : Option Deposit :=
  some { proof := pd.1, data := some pd.2 }

/-- All deposit Merkle branches verify at consecutive tree positions
starting from the given deposit index. -/
def branchesOk (env : Env) (root : Root) : Nat → List (List Root × DepositData) → Bool
  | _, [] => true
  | idx, pd :: rest =>
    VerifyMerkleBranch env root (env.htrDepositData pd.2) idx pd.1
        Config.depositContractTreeDepth
      && branchesOk env root (idx + 1) rest

/-- A concrete instantiation of the external primitives, used to evaluate
the embedded functions on concrete inputs: pair-hashing is constant 5, all
leaf roots are 0, a pubkey signs validly unless it is `[2]`, the attester
seed of an epoch is the epoch itself and the shuffle is the identity. -/
def envW : Env :=
  { hash2 := fun _ _ => 5
    htrState := fun _ => 0
    htrHeader := fun _ => 0
    htrDepositData := fun _ => 0
    bytesToRoot := fun _ => 0
    eth1DataRoot := fun _ => 0
    validatorRoot := fun _ => 0
    pendingAttRoot := fun _ => 0
    blsVerify := fun pk _ _ => pk ≠ [2]
    pubkeyValid := fun _ => true
    signingRootDeposit := fun _ _ => 0
    depositDomain := []
    attesterSeed := fun _ e => .ok e
    unshuffleList := fun l _ => .ok l }

/-- A trivial epoch transition for concrete evaluation. -/
def peW : EpochFn :=
  { fn := fun s => .ok s
    preservesSlot := by intro s s' h; cases h; rfl }

/-- A state with a deposit tree root matching `envW`'s constant hash. -/
def stW3 : BeaconState :=
  { eth1Data := some { depositRoot := 5, depositCount := 4 } }

/-- Deposit data with a validly-signing pubkey under `envW`. -/
def dataW3 : DepositData := { publicKey := [1], amount := 1000000000 }

/-- Deposit data whose pubkey `[2]` fails BLS verification under `envW`. -/
def dataW4 : DepositData := { publicKey := [2], amount := 7 }

/-- A 33-node all-zero Merkle proof (tree depth 32 plus the mix-in level). -/
def proofW : List Root := List.replicate 33 0

/-- A state with four-slot root buffers for evaluating the slot pipeline. -/
def stW2 : BeaconState :=
  { stateRoots := [0, 0, 0, 0], blockRoots := [0, 0, 0, 0] }

/-- `stW2` advanced by one slot under `envW`. -/
def stF2 : BeaconState :=
  { stW2 with slot := 1, latestBlockHeader := { stateRoot := some 0 } }

/-- A signed block whose declared state root matches `envW`'s state root. -/
def sbW : SignedBeaconBlock :=
  { block := some { slot := 5, stateRoot := 0, body := some {} } }

/-- Two proof/data pairs: a valid signer and the invalid `[2]` signer. -/
def pairsW : List (List Root × DepositData) := [(proofW, dataW3), (proofW, dataW4)]

/-- A block body holding the two deposits of `pairsW`. -/
def bodyW5 : BeaconBlockBody := { deposits := pairsW.map mkSomeDeposit }

/-- The signed block around `bodyW5`. -/
def sbW5 : SignedBeaconBlock := { block := some { body := some bodyW5 } }

/-- A block body holding one validly-signed deposit. -/
def bodyW6 : BeaconBlockBody := { deposits := [mkSomeDeposit (proofW, dataW3)] }

/-- The signed block around `bodyW6`. -/
def sbW6 : SignedBeaconBlock := { block := some { body := some bodyW6 } }

/-- A committee-cache entry under seed 5 (= the seed of epoch 5 in `envW`). -/
def entryC : Committees :=
  { shuffledIndices := [], committeeCount := 0, seed := 5, sortedIndices := [] }

/-- A cache already holding epoch 5's seed entry but not epoch 6's. -/
def cacheC : CommitteeCache := { entries := [entryC], maxSize := 32 }

/-- An empty committee cache. -/
def cacheE : CommitteeCache := { entries := [], maxSize := 32 }

/-- The cache `UpdateCommitteeCache` builds from `cacheE` at epoch 5 under
`envW`: entries for the seeds of epochs 5 and 6. -/
def cacheF : CommitteeCache :=
  { entries :=
      [{ shuffledIndices := [], committeeCount := 32, seed := 5, sortedIndices := [] },
       { shuffledIndices := [], committeeCount := 32, seed := 6, sortedIndices := [] }]
    maxSize := 32 }

/-- A one-leaf block-roots field trie. -/
def fW : FieldTrie := { field := .blockRoots, fieldLayers := [[0]] }

/-- A validator activated one epoch too late to exit at epoch 300
(activation_epoch = 300 - SHARD_COMMITTEE_PERIOD + 1). -/
def vW : Validator :=
  { publicKey := [], activationEpoch := 45, exitEpoch := Config.farFutureEpoch }

/-- A voluntary exit valid from epoch 0. -/
def exW : VoluntaryExit := {}

/-- String append concatenates the character data. -/
theorem data_append (s t : String) : (s ++ t).data = s.data ++ t.data := rfl

/-- Claim C10: `CalculateStateRoot` never mutates the caller's input state —
whatever it returns, the store cell the caller's reference points at is
unchanged, because the copy allocated up front receives every write. -/
theorem calculateStateRoot_nonMutating (env : Env)
    (psFn : BeaconState → Nat → Except Err BeaconState)
    (pbFn : BeaconState → Option SignedBeaconBlock → Except Err BeaconState)
    (store : List BeaconState) (r : Nat) (signed : Option SignedBeaconBlock) :
    ((CalculateStateRoot env psFn pbFn store (some r) signed).1)[r]? = store[r]? := by
  unfold CalculateStateRoot
  cases signed with
  | none => rfl
  | some sb =>
    cases hb : sb.block with
    | none => simp [hb]
    | some blk =>
      simp only [hb]
      cases hg : store[r]? with
      | none => simp [hg]
      | some st =>
        have hr : r < store.length := by
          rcases List.getElem?_eq_some.mp hg with ⟨h1, _⟩
          exact h1
        have happ : (store ++ [st])[r]? = store[r]? := List.getElem?_append_left hr
        simp only [hg]
        cases hps : psFn st blk.slot with
        | error e =>
          simp only [hps]
          exact happ.trans hg
        | ok st1 =>
          simp only [hps]
          cases hpb : pbFn st1 (some sb) with
          | error e =>
            simp only [hpb]
            rw [List.getElem?_set_ne (by omega)]
            exact happ.trans hg
          | ok st2 =>
            simp only [hpb]
            rw [List.getElem?_set_ne (by omega), List.getElem?_set_ne (by omega)]
            exact happ.trans hg

/-- Claim C1: if `ExecuteStateTransition` returns without error, the
hash-tree-root of the returned post-state equals the signed block's declared
state root; and when the computed post-state root differs from the declared
root, it returns the error together with the computed post-state. -/
theorem executeStateTransition_rootAgreement (env : Env)
    (psFn : Option BeaconState → Nat → Except Err BeaconState)
    (pbFn : BeaconState → Option SignedBeaconBlock → Except Err BeaconState)
    (state : Option BeaconState) (signed : Option SignedBeaconBlock) :
    (∀ st', ExecuteStateTransition env psFn pbFn state signed = (some st', none) →
      ∃ sb blk, signed = some sb ∧ sb.block = some blk ∧ env.htrState st' = blk.stateRoot) ∧
    (∀ sb blk st1 st2, signed = some sb → sb.block = some blk →
      psFn state blk.slot = .ok st1 → pbFn st1 signed = .ok st2 →
      env.htrState st2 ≠ blk.stateRoot →
      ExecuteStateTransition env psFn pbFn state signed =
        (some st2, some (.stateRootMismatch (env.htrState st2) blk.stateRoot))) := by
  constructor
  · intro st' h
    unfold ExecuteStateTransition at h
    cases signed with
    | none => simp at h
    | some sb =>
      cases hb : sb.block with
      | none => simp [hb] at h
      | some blk =>
        simp only [hb] at h
        cases hps : psFn (state) blk.slot with
        | error e => simp [hps] at h
        | ok st1 =>
          simp only [hps] at h
          cases hpb : pbFn st1 (some sb) with
          | error e => simp [hpb] at h
          | ok st2 =>
            simp only [hpb] at h
            by_cases hroot : env.htrState st2 = blk.stateRoot
            · rw [if_pos hroot] at h
              refine ⟨sb, blk, rfl, hb, ?_⟩
              injection h with h1 h2
              injection h1 with h1
              rw [← h1, hroot]
            · rw [if_neg hroot] at h
              simp at h
  · intro sb blk st1 st2 hsb hb hps hpb hroot
    subst hsb
    unfold ExecuteStateTransition
    simp only [hb, hps, hpb]
    rw [if_neg hroot]

/-- Witness for C1 at a concrete input: with trivial slot/block processors
the transition succeeds and the theorem yields the root agreement. -/
theorem executeStateTransition_rootAgreement_witness :
    ∃ sb blk, (some sbW : Option SignedBeaconBlock) = some sb ∧ sb.block = some blk ∧
      envW.htrState ({} : BeaconState) = blk.stateRoot :=
  (executeStateTransition_rootAgreement envW (fun _ _ => .ok {}) (fun s _ => .ok s)
    (some {}) (some sbW)).1 {} rfl

/-- Claim C7: for an active, not-yet-exited validator whose exit epoch has
arrived, `verifyExitConditions` rejects with the "has not been active long
enough" message exactly when current_epoch < activation_epoch +
SHARD_COMMITTEE_PERIOD, and accepts otherwise. -/
theorem verifyExitConditions_activePeriod (v : Validator) (currentSlot : Nat)
    (ex : VoluntaryExit)
    (hslot : currentSlot < 2 ^ 64)
    (hactive : IsActiveValidator v (SlotToEpoch currentSlot) = true)
    (hff : v.exitEpoch = Config.farFutureEpoch)
    (hep : ex.epoch ≤ SlotToEpoch currentSlot) :
    (SlotToEpoch currentSlot < v.activationEpoch + Config.shardCommitteePeriod →
      verifyExitConditions v currentSlot ex =
        .error (.cannotExitYet (SlotToEpoch currentSlot)
          (v.activationEpoch + Config.shardCommitteePeriod)) ∧
      ∃ l1 l2, (exitErrMessage (.cannotExitYet (SlotToEpoch currentSlot)
          (v.activationEpoch + Config.shardCommitteePeriod))).data =
        l1 ++ ("has not been active long enough".data) ++ l2) ∧
    (v.activationEpoch + Config.shardCommitteePeriod ≤ SlotToEpoch currentSlot →
      verifyExitConditions v currentSlot ex = .ok ()) := by
  have hact_le : v.activationEpoch ≤ SlotToEpoch currentSlot := by
    unfold IsActiveValidator at hactive
    simp only [Bool.and_eq_true, decide_eq_true_eq] at hactive
    exact hactive.1
  have hepoch_le : SlotToEpoch currentSlot ≤ (2 ^ 64 - 1) / 32 := by
    unfold SlotToEpoch Config.slotsPerEpoch
    exact Nat.div_le_div_right (by omega)
  have hbound : (2 ^ 64 - 1) / 32 + 256 < 2 ^ 64 := by decide
  have hmod : (v.activationEpoch + Config.shardCommitteePeriod) % 2 ^ 64 =
      v.activationEpoch + Config.shardCommitteePeriod := by
    apply Nat.mod_eq_of_lt
    unfold Config.shardCommitteePeriod
    omega
  constructor
  · intro hlt
    constructor
    · unfold verifyExitConditions
      rw [if_neg (by simp [hactive]), if_neg (by simp [hff]), if_neg (by omega), hmod,
        if_pos hlt]
    · refine ⟨"validator ".data,
        " to exit".data ++ (": ".data ++ ((toString (SlotToEpoch currentSlot)).data ++
          (" epochs vs required ".data ++
            ((toString (v.activationEpoch + Config.shardCommitteePeriod)).data ++
              " epochs".data)))), ?_⟩
      have hmsg : ValidatorCannotExitYetMsg.data =
          "validator ".data ++ "has not been active long enough".data ++ " to exit".data := by
        decide
      simp only [exitErrMessage, data_append, hmsg, List.append_assoc]
  · intro hge
    unfold verifyExitConditions
    rw [if_neg (by simp [hactive]), if_neg (by simp [hff]), if_neg (by omega), hmod,
      if_neg (by omega)]

/-- Witness for C7 at a concrete input: a validator with activation_epoch =
current_epoch - SHARD_COMMITTEE_PERIOD + 1 (epoch 300, activation 45) is
rejected with the "has not been active long enough" message. -/
theorem verifyExitConditions_activePeriod_witness :
    verifyExitConditions vW 9600 exW = .error (.cannotExitYet 300 301) ∧
    ∃ l1 l2, (exitErrMessage (.cannotExitYet 300 301)).data =
      l1 ++ ("has not been active long enough".data) ++ l2 :=
  (verifyExitConditions_activePeriod vW 9600 exW (by decide) (by decide) rfl
    (by decide)).1 (by decide)

/-- A pubkey lookup hit is an index into the registry. -/
theorem validatorIndexByPubkey_some_lt (vs : List Validator) (pk : Bytes) (i : Nat)
    (h : validatorIndexByPubkey vs pk = some i) : i < vs.length := by
  induction vs generalizing i with
  | nil => simp [validatorIndexByPubkey] at h
  | cons v rest ih =>
    unfold validatorIndexByPubkey at h
    by_cases hpk : v.publicKey = pk
    · rw [if_pos hpk] at h
      injection h with h
      simp [← h]
    · rw [if_neg hpk] at h
      cases hr : validatorIndexByPubkey rest pk with
      | none => rw [hr] at h; simp at h
      | some j =>
        rw [hr] at h
        simp only [Option.map_some'] at h
        injection h with h
        have := ih j hr
        simp only [List.length_cons]
        omega

/-- A pubkey lookup misses exactly when no registry entry carries the key. -/
theorem validatorIndexByPubkey_eq_none_iff (vs : List Validator) (pk : Bytes) :
    validatorIndexByPubkey vs pk = none ↔ ∀ v ∈ vs, v.publicKey ≠ pk := by
  induction vs with
  | nil => simp [validatorIndexByPubkey]
  | cons v rest ih =>
    unfold validatorIndexByPubkey
    by_cases hpk : v.publicKey = pk
    · simp [hpk]
    · simp [hpk, ih, Option.map_eq_none']

/-- Claim C3: `ProcessDeposit` verifies the deposit Merkle branch against
eth1_data.deposit_root at position eth1_deposit_index with tree depth
DEPOSIT_CONTRACT_TREE_DEPTH + 1; it errors iff the branch fails, in which
case the state — the deposit index in particular — is unchanged. -/
theorem processDeposit_merkleGate (env : Env) (st : BeaconState) (dep : Deposit)
    (data : DepositData) (eth1 : Eth1Data) (vs : Bool)
    (hdata : dep.data = some data) (heth1 : st.eth1Data = some eth1)
    (hlen : st.balances.length = st.validators.length) :
    (VerifyMerkleBranch env eth1.depositRoot (env.htrDepositData data) st.eth1DepositIndex
        dep.proof Config.depositContractTreeDepth = false →
      ProcessDeposit env st (some dep) vs = (st, some (.merkleBranchFailed eth1.depositRoot))) ∧
    (VerifyMerkleBranch env eth1.depositRoot (env.htrDepositData data) st.eth1DepositIndex
        dep.proof Config.depositContractTreeDepth = true →
      (ProcessDeposit env st (some dep) vs).2 = none ∧
      dep.proof.length = Config.depositContractTreeDepth + 1) := by
  constructor
  · intro hb
    have hv : verifyDeposit env st (some dep) =
        .error (.merkleBranchFailed eth1.depositRoot) := by
      unfold verifyDeposit
      simp [hdata, heth1, hb]
    unfold ProcessDeposit
    rw [hv]
  · intro hb
    have hv : verifyDeposit env st (some dep) = .ok () := by
      unfold verifyDeposit
      simp [hdata, heth1, hb]
    constructor
    · unfold ProcessDeposit
      rw [hv]
      simp only [hdata]
      cases hidx : validatorIndexByPubkey st.validators data.publicKey with
      | none =>
        simp only [hidx]
        cases vs with
        | true =>
          cases hsig : verifyDepositDataSigningRoot env data env.depositDomain with
          | error e => simp [hsig]
          | ok u => simp [hsig]
        | false => simp
      | some i =>
        have hi : i < st.balances.length := by
          rw [hlen]
          exact validatorIndexByPubkey_some_lt st.validators data.publicKey i hidx
        simp only [hidx]
        unfold IncreaseBalance
        rw [dif_pos hi]
    · unfold VerifyMerkleBranch at hb
      by_cases hl : dep.proof.length = Config.depositContractTreeDepth + 1
      · exact hl
      · rw [if_pos hl] at hb
        exact absurd hb (by simp)

/-- Witness for C3 at a concrete input: a 33-node proof that verifies under
the constant hasher leads to an error-free deposit. -/
theorem processDeposit_merkleGate_witness :
    (ProcessDeposit envW stW3 (some { proof := proofW, data := some dataW3 }) true).2 = none ∧
    proofW.length = Config.depositContractTreeDepth + 1 :=
  (processDeposit_merkleGate envW stW3 { proof := proofW, data := some dataW3 } dataW3
    { depositRoot := 5, depositCount := 4 } true rfl rfl rfl).2 (by decide)

/-- Claim C4: with per-deposit signature verification enabled, a deposit
whose branch verifies, whose pubkey is unknown and whose BLS signature fails
is silently skipped: no error, no validator or balance appended, but the
eth1 deposit index is still incremented by one. -/
theorem processDeposit_sigSkip (env : Env) (st : BeaconState) (dep : Deposit)
    (data : DepositData) (eth1 : Eth1Data) (e : Err)
    (hdata : dep.data = some data) (heth1 : st.eth1Data = some eth1)
    (hbr : VerifyMerkleBranch env eth1.depositRoot (env.htrDepositData data)
      st.eth1DepositIndex dep.proof Config.depositContractTreeDepth = true)
    (hunknown : validatorIndexByPubkey st.validators data.publicKey = none)
    (hsig : verifyDepositDataSigningRoot env data env.depositDomain = .error e) :
    ProcessDeposit env st (some dep) true =
      ({ st with eth1DepositIndex := st.eth1DepositIndex + 1 }, none) := by
  have hv : verifyDeposit env st (some dep) = .ok () := by
    unfold verifyDeposit
    simp [hdata, heth1, hbr]
  unfold ProcessDeposit
  rw [hv]
  simp [hdata, hunknown, hsig]

/-- Witness for C4 at a concrete input: the pubkey `[2]` deposit fails BLS
verification and is skipped with only the index bump. -/
theorem processDeposit_sigSkip_witness :
    ProcessDeposit envW stW3 (some { proof := proofW, data := some dataW4 }) true =
      ({ stW3 with eth1DepositIndex := stW3.eth1DepositIndex + 1 }, none) :=
  processDeposit_sigSkip envW stW3 { proof := proofW, data := some dataW4 } dataW4
    { depositRoot := 5, depositCount := 4 } .depositSigFailed rfl rfl (by decide) rfl rfl

/-- A successful balance increase touches only the balances list. -/
theorem increaseBalance_ok (st : BeaconState) (i a : Nat) (st2 : BeaconState)
    (h : IncreaseBalance st i a = .ok st2) :
    st2.eth1DepositIndex = st.eth1DepositIndex ∧ st2.validators = st.validators ∧
      st2.eth1Data = st.eth1Data := by
  unfold IncreaseBalance at h
  split at h
  · injection h with h
    subst h
    exact ⟨rfl, rfl, rfl⟩
  · exact Except.noConfusion h

/-- Every error-free run of `ProcessDeposit` bumps the deposit index by 1. -/
theorem processDeposit_ok_depositIndex (env : Env) (st : BeaconState) (d : Option Deposit)
    (vs : Bool) (st' : BeaconState) (h : ProcessDeposit env st d vs = (st', none)) :
    st'.eth1DepositIndex = st.eth1DepositIndex + 1 := by
  simp only [ProcessDeposit] at h
  split at h
  · simp at h
  · split at h
    · simp at h
    · split at h
      · simp at h
      · split at h
        · split at h
          · split at h
            · injection h with h1 h2
              rw [← h1]
            · injection h with h1 h2
              rw [← h1]
          · injection h with h1 h2
            rw [← h1]
        · split at h
          · injection h with h1 h2
            rw [← h1]
            rename_i st2 heq
            exact (increaseBalance_ok _ _ _ _ heq).1
          · simp at h

/-- Every error-free run of the deposit loop bumps the index once per
deposit. -/
theorem processDepositList_ok_depositIndex (env : Env) (vs : Bool) :
    ∀ (ds : List (Option Deposit)) (st st' : BeaconState),
    processDepositList env st ds vs = (st', none) →
    st'.eth1DepositIndex = st.eth1DepositIndex + ds.length := by
  intro ds
  induction ds with
  | nil =>
    intro st st' h
    simp only [processDepositList] at h
    injection h with h1 h2
    rw [← h1]
    simp
  | cons d rest ih =>
    intro st st' h
    simp only [processDepositList] at h
    split at h
    · simp at h
    · split at h
      · simp at h
      · split at h
        · rename_i st1 heq
          have h1 := processDeposit_ok_depositIndex env st _ vs st1 heq
          have h2 := ih st1 st' h
          simp only [List.length_cons]
          omega
        · simp at h

/-- Claim C6: a successful `ProcessDeposits` returns a state whose
eth1_deposit_index equals the input's plus the number of deposits in the
block body — every deposit increments it exactly once, skipped ones
included. -/
theorem processDeposits_depositIndex (env : Env) (st : BeaconState) (sb : SignedBeaconBlock)
    (blk : BeaconBlock) (body : BeaconBlockBody) (st' : BeaconState)
    (hblk : sb.block = some blk) (hbody : blk.body = some body)
    (h : ProcessDeposits env st (some sb) = (st', none)) :
    st'.eth1DepositIndex = st.eth1DepositIndex + body.deposits.length := by
  unfold ProcessDeposits at h
  have hnil : VerifyNilBeaconBlock (some sb) = .ok body := by
    unfold VerifyNilBeaconBlock
    simp [hblk, hbody]
  rw [hnil] at h
  exact processDepositList_ok_depositIndex env _ body.deposits st st' h

/-- Witness for C6 at a concrete input: one deposit, index bumped by one. -/
theorem processDeposits_depositIndex_witness :
    ({ stW3 with
        eth1DepositIndex := 1
        validators := [validatorFromDeposit dataW3]
        balances := [1000000000] } : BeaconState).eth1DepositIndex =
      stW3.eth1DepositIndex + bodyW6.deposits.length :=
  processDeposits_depositIndex envW stW3 sbW6 { body := some bodyW6 } bodyW6
    { stW3 with
      eth1DepositIndex := 1
      validators := [validatorFromDeposit dataW3]
      balances := [1000000000] } rfl rfl (by decide)

/-- A successful state-root buffer write preserves the slot. -/
theorem updateStateRootAtIndex_slot (st : BeaconState) (idx : Nat) (r : Root)
    (st' : BeaconState) (h : updateStateRootAtIndex st idx r = .ok st') :
    st'.slot = st.slot := by
  unfold updateStateRootAtIndex at h
  split at h
  · injection h with h
    rw [← h]
  · exact Except.noConfusion h

/-- A successful block-root buffer write preserves the slot. -/
theorem updateBlockRootAtIndex_slot (st : BeaconState) (idx : Nat) (r : Root)
    (st' : BeaconState) (h : updateBlockRootAtIndex st idx r = .ok st') :
    st'.slot = st.slot := by
  unfold updateBlockRootAtIndex at h
  split at h
  · injection h with h
    rw [← h]
  · exact Except.noConfusion h

/-- `ProcessSlot` never changes the slot. -/
theorem processSlot_slot (env : Env) (st st1 : BeaconState)
    (h : ProcessSlot env st = .ok st1) : st1.slot = st.slot := by
  unfold ProcessSlot at h
  cases hu : updateStateRootAtIndex st (st.slot % Config.slotsPerHistoricalRoot)
      (env.htrState st) with
  | error e =>
    rw [hu] at h
    exact Except.noConfusion h
  | ok st0 =>
    rw [hu] at h
    have h0 : st0.slot = st.slot := updateStateRootAtIndex_slot _ _ _ _ hu
    simp only at h
    split at h
    · have := updateBlockRootAtIndex_slot _ _ _ _ h
      simpa [h0] using this
    · have := updateBlockRootAtIndex_slot _ _ _ _ h
      simpa [h0] using this

/-- The state entering the next loop iteration sits one slot higher. -/
theorem slotStep_slot_aux (env : Env) (pe : EpochFn) (st st1 st2 : BeaconState)
    (hps : ProcessSlot env st = .ok st1)
    (hpe : (if CanProcessEpoch st1 then pe.fn st1 else .ok st1) = .ok st2) :
    st2.slot = st.slot := by
  have h1 : st1.slot = st.slot := processSlot_slot env st st1 hps
  by_cases hc : CanProcessEpoch st1
  · rw [if_pos hc] at hpe
    rw [pe.preservesSlot st1 st2 hpe, h1]
  · rw [if_neg hc] at hpe
    injection hpe with hpe
    rw [← hpe, h1]

/-- The fueled skip-slot loop equals the per-slot step iteration, and on
success ends exactly at the target slot, whenever the fuel is the distance
to the target. -/
theorem processSlotsLoop_spec (env : Env) (pe : EpochFn) (target : Nat) :
    ∀ (fuel : Nat) (st : BeaconState), st.slot + fuel = target →
    processSlotsLoop env pe fuel st target = iterateStep env pe fuel st ∧
    (∀ st', processSlotsLoop env pe fuel st target = .ok st' → st'.slot = target) := by
  intro fuel
  induction fuel with
  | zero =>
    intro st hst
    refine ⟨rfl, ?_⟩
    intro st' h
    injection h with h
    rw [← h]
    omega
  | succ n ih =>
    intro st hst
    have hlt : st.slot < target := by omega
    constructor
    · unfold processSlotsLoop iterateStep slotStep
      rw [if_pos hlt]
      cases hps : ProcessSlot env st with
      | error e => simp [hps]
      | ok st1 =>
        simp only [hps]
        cases hpe : (if CanProcessEpoch st1 then pe.fn st1 else .ok st1) with
        | error e => simp [hpe]
        | ok st2 =>
          simp only [hpe]
          have hslot2 : st2.slot = st.slot := slotStep_slot_aux env pe st st1 st2 hps hpe
          exact (ih { st2 with slot := st2.slot + 1 } (by simp only; omega)).1
    · intro st' h
      unfold processSlotsLoop at h
      rw [if_pos hlt] at h
      cases hps : ProcessSlot env st with
      | error e =>
        rw [hps] at h
        exact Except.noConfusion h
      | ok st1 =>
        rw [hps] at h
        simp only at h
        cases hpe : (if CanProcessEpoch st1 then pe.fn st1 else .ok st1) with
        | error e =>
          rw [hpe] at h
          exact Except.noConfusion h
        | ok st2 =>
          rw [hpe] at h
          simp only at h
          have hslot2 : st2.slot = st.slot := slotStep_slot_aux env pe st st1 st2 hps hpe
          exact (ih { st2 with slot := st2.slot + 1 } (by simp only; omega)).2 st' h

/-- Claim C2: `ProcessSlots` rejects a nil state, rejects state.slot ≥
target, and otherwise a successful run ends at exactly the target slot and
equals the iteration of process_slot / conditional epoch transition / slot
increment, once per slot from the (possibly cache-adopted) start. -/
theorem processSlots_characterization (env : Env) (pe : EpochFn)
    (cached : Option BeaconState) (target : Nat) :
    ProcessSlots env pe cached none target = .error .nilState ∧
    (∀ st : BeaconState, target ≤ st.slot →
      ProcessSlots env pe cached (some st) target = .error (.expectedSlotLess st.slot target)) ∧
    (∀ st st' : BeaconState, ProcessSlots env pe cached (some st) target = .ok st' →
      st'.slot = target ∧
      iterateStep env pe (target - (adoptCached cached st target).slot)
        (adoptCached cached st target) = .ok st') := by
  refine ⟨rfl, ?_, ?_⟩
  · intro st h
    unfold ProcessSlots
    simp only
    rw [if_pos (show st.slot ≥ target from h)]
  · intro st st' h
    unfold ProcessSlots at h
    simp only at h
    by_cases hge : st.slot ≥ target
    · rw [if_pos hge] at h
      exact Except.noConfusion h
    · rw [if_neg hge] at h
      have hs0 : (adoptCached cached st target).slot < target := by
        unfold adoptCached
        cases cached with
        | none =>
          simp only
          omega
        | some c =>
          simp only
          by_cases hc : c.slot < target
          · rw [if_pos hc]
            exact hc
          · rw [if_neg hc]
            omega
      have hspec := processSlotsLoop_spec env pe target
        (target - (adoptCached cached st target).slot) (adoptCached cached st target)
        (by omega)
      exact ⟨hspec.2 st' h, hspec.1.symm.trans h⟩

/-- Witness for C2 at a concrete input: advancing `stW2` from slot 0 to
slot 1 succeeds, ends at slot 1 and matches the step iteration. -/
theorem processSlots_characterization_witness :
    ProcessSlots envW peW none (some stW2) 1 = .ok stF2 ∧
    (stF2.slot = 1 ∧
      iterateStep envW peW (1 - (adoptCached none stW2 1).slot)
        (adoptCached none stW2 1) = .ok stF2) :=
  ⟨rfl, (processSlots_characterization envW peW none 1).2.2 stW2 stF2 rfl⟩

/-- An entry built for a seed carries that seed. -/
theorem committeeEntry_seed (env : Env) (st : BeaconState) (e : Nat) (seed : Root)
    (entry : Committees) (h : committeeEntryForEpoch env st e seed = .ok entry) :
    entry.seed = seed := by
  unfold committeeEntryForEpoch at h
  cases hs : ShuffledIndices env st e with
  | error err =>
    rw [hs] at h
    exact Except.noConfusion h
  | ok si =>
    rw [hs] at h
    injection h with h
    rw [← h]

/-- The entry just inserted into the committee cache is present as long as
the capacity is at least one. -/
theorem hasEntry_add_self (c : CommitteeCache) (e : Committees) (h : 1 ≤ c.maxSize) :
    (c.add e).hasEntry e.seed = true := by
  unfold CommitteeCache.add CommitteeCache.hasEntry
  simp only
  have hk : (c.entries ++ [e]).length - c.maxSize ≤ c.entries.length := by
    simp only [List.length_append, List.length_singleton]
    omega
  rw [List.drop_append_of_le_length hk]
  simp [List.any_append]

/-- The previously newest cache entry survives one further insert as long
as the capacity is at least two. -/
theorem hasEntry_add_of_last (c : CommitteeCache) (l : List Committees) (a e : Committees)
    (hc : c.entries = l ++ [a]) (hcap : 2 ≤ c.maxSize) :
    (c.add e).hasEntry a.seed = true := by
  unfold CommitteeCache.add CommitteeCache.hasEntry
  simp only
  rw [hc, List.append_assoc]
  have hk : ((l ++ ([a] ++ [e])).length - c.maxSize) ≤ l.length := by
    simp only [List.length_append, List.length_singleton]
    omega
  rw [List.drop_append_of_le_length hk]
  simp [List.any_append]

/-- The entries of a cache after an insert end with the inserted entry
(capacity permitting). -/
theorem add_entries_form (c : CommitteeCache) (e : Committees) (h : 1 ≤ c.maxSize) :
    (c.add e).entries =
      c.entries.drop ((c.entries ++ [e]).length - c.maxSize) ++ [e] := by
  unfold CommitteeCache.add
  simp only
  rw [List.drop_append_of_le_length]
  simp only [List.length_append, List.length_singleton]
  omega

/-- Counterexample to C8 as stated: with the attester seed of epoch `e`
being `e` itself, a cache already holding epoch 5's seed entry makes
`UpdateCommitteeCache` return successfully without ever inserting epoch 6's
entry — the loop body's cache-hit check returns from the whole function. -/
theorem updateCommitteeCache_skipsNextEpoch :
    UpdateCommitteeCache envW ({} : BeaconState) 5 cacheC = .ok cacheC ∧
    cacheC.hasEntry 6 = false :=
  ⟨rfl, rfl⟩

/-- Claim C8 (amended): after a successful `UpdateCommitteeCache(state, e)`
on a cache that does not yet hold epoch `e`'s attester-seed entry (and has
capacity at least two), the cache holds entries for the attester seeds of
both epoch `e` and epoch `e+1`; when epoch `e`'s entry is already present
the call returns the cache unchanged and epoch `e+1` may stay absent. -/
theorem updateCommitteeCache_populates (env : Env) (st : BeaconState) (epoch : Nat)
    (cache cache' : CommitteeCache) (s0 s1 : Root)
    (h0 : env.attesterSeed st epoch = .ok s0)
    (h1 : env.attesterSeed st (epoch + 1) = .ok s1)
    (hmiss : cache.hasEntry s0 = false)
    (hcap : 2 ≤ cache.maxSize)
    (hok : UpdateCommitteeCache env st epoch cache = .ok cache') :
    cache'.hasEntry s0 = true ∧ cache'.hasEntry s1 = true := by
  unfold UpdateCommitteeCache at hok
  rw [h0] at hok
  simp only at hok
  rw [if_neg (by simp [hmiss])] at hok
  cases he0 : committeeEntryForEpoch env st epoch s0 with
  | error e =>
    rw [he0] at hok
    exact Except.noConfusion hok
  | ok entry0 =>
    rw [he0] at hok
    simp only at hok
    rw [h1] at hok
    simp only at hok
    have hseed0 : entry0.seed = s0 := committeeEntry_seed env st epoch s0 entry0 he0
    by_cases hh : (cache.add entry0).hasEntry s1 = true
    · rw [if_pos hh] at hok
      injection hok with hok
      subst hok
      refine ⟨?_, hh⟩
      rw [← hseed0]
      exact hasEntry_add_self cache entry0 (by omega)
    · rw [if_neg (by simpa using hh)] at hok
      cases he1 : committeeEntryForEpoch env st (epoch + 1) s1 with
      | error e =>
        rw [he1] at hok
        exact Except.noConfusion hok
      | ok entry1 =>
        rw [he1] at hok
        injection hok with hok
        subst hok
        have hseed1 : entry1.seed = s1 := committeeEntry_seed env st (epoch + 1) s1 entry1 he1
        constructor
        · rw [← hseed0]
          exact hasEntry_add_of_last (cache.add entry0) _ entry0 entry1
            (add_entries_form cache entry0 (by omega)) hcap
        · rw [← hseed1]
          exact hasEntry_add_self (cache.add entry0) entry1 (Nat.le_trans (by omega) hcap)

/-- Witness for the amended C8 at a concrete input: updating an empty cache
at epoch 5 populates the entries for seeds 5 and 6. -/
theorem updateCommitteeCache_populates_witness :
    cacheF.hasEntry 5 = true ∧ cacheF.hasEntry 6 = true :=
  updateCommitteeCache_populates envW ({} : BeaconState) 5 cacheE cacheF 5 6 rfl rfl rfl
    (by decide) rfl

/-- The converter index loop fails whenever some changed index reaches the
element count. -/
theorem rootsAt_oob (conv : Nat → Root) (n : Nat) :
    ∀ (indices : List Nat), (∃ i ∈ indices, n ≤ i) →
    ∃ e, rootsAt conv n indices = .error e := by
  intro indices
  induction indices with
  | nil =>
    intro h
    simp at h
  | cons idx rest ih =>
    intro h
    unfold rootsAt
    by_cases hn : n ≤ idx
    · rw [if_pos hn]
      exact ⟨_, rfl⟩
    · rw [if_neg hn]
      rcases h with ⟨i, hi, hni⟩
      rcases List.mem_cons.mp hi with hi1 | hi2
      · omega
      · rcases ih ⟨i, hi2, hni⟩ with ⟨e, he⟩
        rw [he]
        exact ⟨e, rfl⟩

/-- With an out-of-range changed index, every converter either fails or —
when the element slice is empty — emits no leaf roots at all. -/
theorem fieldConverters_oob (env : Env) (field : fieldIndex) (indices : List Nat)
    (elements : Elements) (hoob : ∃ i ∈ indices, elemsLen elements ≤ i) :
    (∃ e, fieldConverters env field indices elements false = .error e) ∨
    fieldConverters env field indices elements false = .ok [] := by
  cases field <;> try exact Or.inl ⟨_, rfl⟩
  all_goals
    cases elements <;> try exact Or.inl ⟨_, rfl⟩
  all_goals
    rename_i v
  all_goals
    simp only [fieldConverters, handleByteArrays, handleEth1DataSlice,
      handleValidatorSlice, handlePendingAttestation]
  all_goals
    rw [if_neg Bool.false_ne_true]
  all_goals
    by_cases hv : v.length = 0
  case pos | pos | pos | pos | pos | pos | pos =>
    exact Or.inr (by rw [if_pos hv])
  all_goals
    refine Or.inl ?_
  all_goals
    rw [if_neg hv]
  all_goals
    exact rootsAt_oob _ _ indices (by simpa [elemsLen] using hoob)

/-- Recomputation from an empty leaf-root list with pending changed indices
fails. -/
theorem recomputeFromLayer_empty (env : Env) (indices : List Nat)
    (layers : List (List Root)) (hne : indices ≠ []) :
    ∃ e, RecomputeFromLayer env [] indices layers = .error e := by
  unfold RecomputeFromLayer
  cases layers with
  | nil => exact ⟨_, rfl⟩
  | cons layer0 upper =>
    cases indices with
    | nil => exact absurd rfl hne
    | cons i rest =>
      simp only
      have hs : setLeaves layer0 (i :: rest) [] = .error .layerMismatch := rfl
      rw [hs]
      exact ⟨_, rfl⟩

/-- Claim C9: `RecomputeTrie` over a supported field kind, called with a
non-empty changed-indices list containing an index at or beyond the element
count, returns an error rather than a root. -/
theorem recomputeTrie_oobErrors (env : Env) (f : FieldTrie) (indices : List Nat)
    (elements : Elements) (dt : dataType)
    (hne : indices ≠ [])
    (hdt : fieldMap f.field = some dt)
    (hoob : ∃ i ∈ indices, elemsLen elements ≤ i) :
    ∃ e, RecomputeTrie env f indices elements = .error e := by
  have hlen : ¬ indices.length = 0 := by
    cases indices
    · exact absurd rfl hne
    · simp
  unfold RecomputeTrie
  rw [if_neg hlen, hdt]
  simp only
  rcases fieldConverters_oob env f.field indices elements hoob with ⟨e, he⟩ | he
  · rw [he]
    exact ⟨e, rfl⟩
  · rw [he]
    simp only
    cases dt with
    | basicArray =>
      rcases recomputeFromLayer_empty env indices f.fieldLayers hne with ⟨e, hre⟩
      rw [hre]
      exact ⟨e, rfl⟩
    | compositeArray =>
      rcases recomputeFromLayer_empty env indices f.fieldLayers hne with ⟨e, hre⟩
      have hrv : RecomputeFromLayerVariable env [] indices f.fieldLayers = .error e := hre
      rw [hrv]
      exact ⟨e, rfl⟩

/-- Witness for C9 at a concrete input: index 3 against a one-element
byte-array slice makes `RecomputeTrie` fail. -/
theorem recomputeTrie_oobErrors_witness :
    ([3] ≠ ([] : List Nat) ∧ ∃ i ∈ [3], elemsLen (.byteArrays [[1]]) ≤ i) ∧
    ∃ e, RecomputeTrie envW fW [3] (.byteArrays [[1]]) = .error e :=
  ⟨⟨by decide, ⟨3, by decide, by decide⟩⟩,
    recomputeTrie_oobErrors envW fW [3] (.byteArrays [[1]]) .basicArray (by decide) rfl
      ⟨3, by decide, by decide⟩⟩

/-- `all` over a mapped list tests the composite predicate. -/
theorem list_all_map {α β : Type} (f : α → β) (p : β → Bool) :
    ∀ l : List α, (l.map f).all p = l.all fun x => p (f x) := by
  intro l
  induction l with
  | nil => rfl
  | cons a as ih => simp [List.all_cons, ih]

/-- Collecting the aggregate-verification items succeeds on non-nil
deposits with decodable pubkeys, and yields one triple per deposit. -/
theorem collectDepositSigItems_ok (env : Env) (domain : Bytes) :
    ∀ (pairs : List (List Root × DepositData)),
    (∀ pd ∈ pairs, env.pubkeyValid pd.2.publicKey = true) →
    collectDepositSigItems env domain (pairs.map mkSomeDeposit) =
      .ok (pairs.map fun pd =>
        (pd.2.publicKey, env.signingRootDeposit pd.2 domain, pd.2.signature)) := by
  intro pairs
  induction pairs with
  | nil =>
    intro _
    rfl
  | cons pd rest ih =>
    intro h
    simp only [List.map_cons, mkSomeDeposit, collectDepositSigItems]
    rw [if_pos (h pd (List.mem_cons_self pd rest))]
    rw [ih fun x hx => h x (List.mem_cons_of_mem pd hx)]
    rfl

/-- With every pubkey decodable and at least one invalid signature, the
aggregated pre-verification of `ProcessDeposits` fails. -/
theorem verifyDepositDataWithDomain_fails (env : Env)
    (pairs : List (List Root × DepositData))
    (hpk : ∀ pd ∈ pairs, env.pubkeyValid pd.2.publicKey = true)
    (hinv : ∃ pd ∈ pairs, depositSigValid env pd.2 = false) :
    verifyDepositDataWithDomain env (pairs.map mkSomeDeposit) env.depositDomain =
      .error .batchSigFailed := by
  rcases hinv with ⟨pd0, hmem, hbad⟩
  have hne : pairs ≠ [] := by
    intro hp
    rw [hp] at hmem
    simp at hmem
  have hlen : ¬ (pairs.map mkSomeDeposit).length = 0 := by
    simp only [List.length_map]
    cases pairs
    · exact absurd rfl hne
    · simp
  unfold verifyDepositDataWithDomain
  rw [if_neg hlen]
  rw [collectDepositSigItems_ok env env.depositDomain pairs hpk]
  simp only
  have hall : VerifyMultipleSignatures env (pairs.map fun pd =>
      (pd.2.publicKey, env.signingRootDeposit pd.2 env.depositDomain, pd.2.signature)) =
      false := by
    unfold VerifyMultipleSignatures
    rw [list_all_map]
    rw [List.all_eq_false]
    refine ⟨pd0, hmem, ?_⟩
    unfold depositSigValid at hbad
    simp [hbad]
  rw [if_neg (by simp [hall])]

/-- The per-deposit loop with signature verification enabled, over deposits
whose branches verify consecutively, with decodable, fresh, pairwise
distinct pubkeys: it appends a validator and balance for every
validly-signed deposit, skips exactly the invalid ones, increments the
deposit index once per deposit, and returns no error. -/
theorem processDepositList_allNew (env : Env) (eth1 : Eth1Data) :
    ∀ (pairs : List (List Root × DepositData)) (st : BeaconState),
    st.eth1Data = some eth1 →
    branchesOk env eth1.depositRoot st.eth1DepositIndex pairs = true →
    (∀ pd ∈ pairs, env.pubkeyValid pd.2.publicKey = true) →
    (∀ pd ∈ pairs, validatorIndexByPubkey st.validators pd.2.publicKey = none) →
    (pairs.map fun pd => pd.2.publicKey).Nodup →
    processDepositList env st (pairs.map mkSomeDeposit) true =
      ({ st with
          eth1DepositIndex := st.eth1DepositIndex + pairs.length
          validators := st.validators ++
            ((pairs.filter fun pd => depositSigValid env pd.2).map
              fun pd => validatorFromDeposit pd.2)
          balances := st.balances ++
            ((pairs.filter fun pd => depositSigValid env pd.2).map
              fun pd => pd.2.amount) }, none) := by
  intro pairs
  induction pairs with
  | nil =>
    intro st _ _ _ _ _
    simp only [List.map_nil, processDepositList, List.length_nil, List.filter_nil,
      List.append_nil, Nat.add_zero]
  | cons pd rest ih =>
    intro st heth1 hbr hpk hfresh hnodup
    have hbr0 : VerifyMerkleBranch env eth1.depositRoot (env.htrDepositData pd.2)
        st.eth1DepositIndex pd.1 Config.depositContractTreeDepth = true ∧
        branchesOk env eth1.depositRoot (st.eth1DepositIndex + 1) rest = true := by
      simpa [branchesOk, Bool.and_eq_true] using hbr
    have hv : verifyDeposit env st (some { proof := pd.1, data := some pd.2 }) = .ok () := by
      unfold verifyDeposit
      simp [heth1, hbr0.1]
    have hfresh0 : validatorIndexByPubkey st.validators pd.2.publicKey = none :=
      hfresh pd (List.mem_cons_self pd rest)
    have hnd := List.nodup_cons.mp (by simpa only [List.map_cons] using hnodup)
    have hnodup' : (rest.map fun x => x.2.publicKey).Nodup := hnd.2
    have hpk' : ∀ x ∈ rest, env.pubkeyValid x.2.publicKey = true :=
      fun x hx => hpk x (List.mem_cons_of_mem pd hx)
    simp only [List.map_cons, processDepositList, mkSomeDeposit]
    by_cases hsig : depositSigValid env pd.2 = true
    · have hsr : verifyDepositDataSigningRoot env pd.2 env.depositDomain = .ok () := by
        unfold verifyDepositDataSigningRoot
        rw [if_pos (hpk pd (List.mem_cons_self pd rest))]
        unfold depositSigValid at hsig
        rw [if_pos hsig]
      have hstep : ProcessDeposit env st (some { proof := pd.1, data := some pd.2 }) true =
          ({ st with
              eth1DepositIndex := st.eth1DepositIndex + 1
              validators := st.validators ++ [validatorFromDeposit pd.2]
              balances := st.balances ++ [pd.2.amount] }, none) := by
        unfold ProcessDeposit
        rw [hv]
        simp [hfresh0, hsr]
      rw [hstep]
      simp only
      have hfresh' : ∀ x ∈ rest, validatorIndexByPubkey
          (st.validators ++ [validatorFromDeposit pd.2]) x.2.publicKey = none := by
        intro x hx
        rw [validatorIndexByPubkey_eq_none_iff]
        intro v hvmem
        rcases List.mem_append.mp hvmem with hv1 | hv2
        · exact (validatorIndexByPubkey_eq_none_iff st.validators x.2.publicKey).mp
            (hfresh x (List.mem_cons_of_mem pd hx)) v hv1
        · have hveq : v = validatorFromDeposit pd.2 := List.mem_singleton.mp hv2
          subst hveq
          show (validatorFromDeposit pd.2).publicKey ≠ x.2.publicKey
          have hpkeq : (validatorFromDeposit pd.2).publicKey = pd.2.publicKey := rfl
          rw [hpkeq]
          intro heq
          exact hnd.1 (heq ▸ List.mem_map_of_mem (fun y => y.2.publicKey) hx)
      rw [ih { st with
          eth1DepositIndex := st.eth1DepositIndex + 1
          validators := st.validators ++ [validatorFromDeposit pd.2]
          balances := st.balances ++ [pd.2.amount] } heth1 hbr0.2 hpk' hfresh' hnodup']
      rw [Prod.mk.injEq]
      refine ⟨?_, rfl⟩
      simp only [List.filter_cons, hsig, if_true, List.map_cons, List.length_cons,
        List.append_assoc, List.singleton_append]
      rw [BeaconState.mk.injEq]
      refine ⟨rfl, rfl, by omega, rfl, rfl, rfl, rfl, rfl⟩
    · rw [Bool.not_eq_true] at hsig
      have hbls : env.blsVerify pd.2.publicKey
          (env.signingRootDeposit pd.2 env.depositDomain) pd.2.signature = false := by
        unfold depositSigValid at hsig
        exact hsig
      have hsr : verifyDepositDataSigningRoot env pd.2 env.depositDomain =
          .error .depositSigFailed := by
        unfold verifyDepositDataSigningRoot
        rw [if_pos (hpk pd (List.mem_cons_self pd rest))]
        rw [if_neg (by simp [hbls])]
      have hstep : ProcessDeposit env st (some { proof := pd.1, data := some pd.2 }) true =
          ({ st with eth1DepositIndex := st.eth1DepositIndex + 1 }, none) := by
        unfold ProcessDeposit
        rw [hv]
        simp [hfresh0, hsr]
      rw [hstep]
      simp only
      have hfresh' : ∀ x ∈ rest, validatorIndexByPubkey st.validators x.2.publicKey = none :=
        fun x hx => hfresh x (List.mem_cons_of_mem pd hx)
      rw [ih { st with eth1DepositIndex := st.eth1DepositIndex + 1 }
        heth1 hbr0.2 hpk' hfresh' hnodup']
      rw [Prod.mk.injEq]
      refine ⟨?_, rfl⟩
      simp only [List.filter_cons, hsig, List.length_cons]
      rw [BeaconState.mk.injEq]
      refine ⟨rfl, rfl, by omega, rfl, rfl, rfl, rfl, rfl⟩

/-- Claim C5: with at least one invalid deposit signature among otherwise
valid deposits of a block, the aggregated BLS pre-verification fails and
`ProcessDeposits` falls back to per-deposit verification: every
validly-signed deposit is still fully processed (validator and balance
appended), exactly the invalid-signature deposits are skipped, and no error
is returned. -/
theorem processDeposits_batchFallback (env : Env) (st : BeaconState)
    (sb : SignedBeaconBlock) (blk : BeaconBlock) (body : BeaconBlockBody)
    (eth1 : Eth1Data) (pairs : List (List Root × DepositData))
    (hblk : sb.block = some blk) (hbody : blk.body = some body)
    (hdeps : body.deposits = pairs.map mkSomeDeposit)
    (heth1 : st.eth1Data = some eth1)
    (hbr : branchesOk env eth1.depositRoot st.eth1DepositIndex pairs = true)
    (hpk : ∀ pd ∈ pairs, env.pubkeyValid pd.2.publicKey = true)
    (hfresh : ∀ pd ∈ pairs, validatorIndexByPubkey st.validators pd.2.publicKey = none)
    (hnodup : (pairs.map fun pd => pd.2.publicKey).Nodup)
    (hinv : ∃ pd ∈ pairs, depositSigValid env pd.2 = false) :
    ProcessDeposits env st (some sb) =
      ({ st with
          eth1DepositIndex := st.eth1DepositIndex + pairs.length
          validators := st.validators ++
            ((pairs.filter fun pd => depositSigValid env pd.2).map
              fun pd => validatorFromDeposit pd.2)
          balances := st.balances ++
            ((pairs.filter fun pd => depositSigValid env pd.2).map
              fun pd => pd.2.amount) }, none) := by
  unfold ProcessDeposits
  have hnil : VerifyNilBeaconBlock (some sb) = .ok body := by
    unfold VerifyNilBeaconBlock
    simp [hblk, hbody]
  rw [hnil]
  simp only
  rw [hdeps, verifyDepositDataWithDomain_fails env pairs hpk hinv]
  exact processDepositList_allNew env eth1 pairs st heth1 hbr hpk hfresh hnodup

/-- Witness for C5 at a concrete input: one valid and one invalid deposit;
the valid one is appended, the invalid one skipped, the index advances by
two, with no error. -/
theorem processDeposits_batchFallback_witness :
    ProcessDeposits envW stW3 (some sbW5) =
      ({ stW3 with
          eth1DepositIndex := stW3.eth1DepositIndex + pairsW.length
          validators := stW3.validators ++
            ((pairsW.filter fun pd => depositSigValid envW pd.2).map
              fun pd => validatorFromDeposit pd.2)
          balances := stW3.balances ++
            ((pairsW.filter fun pd => depositSigValid envW pd.2).map
              fun pd => pd.2.amount) }, none) :=
  processDeposits_batchFallback envW stW3 sbW5 { body := some bodyW5 } bodyW5
    { depositRoot := 5, depositCount := 4 } pairsW rfl rfl rfl rfl (by decide)
    (by decide) (by decide) (by decide) ⟨(proofW, dataW4), by decide, by decide⟩

end Prysm
